import Mathlib

/-!
Verification development for `make_yiddish_wordlist`
(`src/yiddish_wordlist/main.py`).

Python strings are modelled as `List Char` (`PStr`); Python exceptions as
`Except PStr`; Python float division as exact division on `ℚ` (the point the
spec makes is true division versus integer division).  HTML pages produced by
the browser collaborator are modelled as a DOM tree (`Dom`); BeautifulSoup
navigation (find / find_all / parent / siblings / .text) is modelled by
addressing nodes with paths (lists of child indices) from the document root.
-/

/-- Python strings, modelled as lists of characters. -/
abbrev PStr := List Char

/-- Convert a Lean string literal into the `PStr` model. -/
def S (s : String) : PStr := s.toList

/-- Python `str.split(sep)` for a single-character separator `sep`:
every occurrence of `sep` separates segments, adjacent separators produce
empty segments. -/
def pySplitc (sep : Char) : PStr → List PStr
  | [] => [[]]
  | c :: rest =>
    match pySplitc sep rest with
    | [] => [[]]
    | t :: ts => if c = sep then [] :: t :: ts else (c :: t) :: ts

/-- Fuel-driven worker for `pySplitOn` (multi-character separators). -/
def splitOnAuxF (sep : PStr) : Nat → PStr → List PStr
  | 0, l => [l]
  | fuel + 1, l =>
    match l with
    | [] => [[]]
    | c :: rest =>
      if List.isPrefixOf sep l ∧ sep ≠ [] then
        [] :: splitOnAuxF sep fuel (l.drop sep.length)
      else
        match splitOnAuxF sep fuel rest with
        | [] => [[c]]
        | t :: ts => (c :: t) :: ts

/-- Python `str.split(sep)` for a non-empty separator string `sep`. -/
def pySplitOn (sep l : PStr) : List PStr := splitOnAuxF sep (l.length + 1) l

/-- Python `str.replace(old, new)`: replace every occurrence of `old`. -/
def pyReplace (old new l : PStr) : PStr := List.intercalate new (pySplitOn old l)

/-- Python `str.strip()`: drop leading and trailing whitespace. -/
def pyStrip (l : PStr) : PStr :=
  ((l.dropWhile Char.isWhitespace).reverse.dropWhile Char.isWhitespace).reverse

/-- Python `pat in s` (substring containment). -/
def pyContains (pat l : PStr) : Bool :=
  (List.range (l.length + 1)).any (fun i => List.isPrefixOf pat (l.drop i))

/-- Python `str.startswith(pat)`. -/
def pyStartsWith (pat l : PStr) : Bool := List.isPrefixOf pat l

/-- Python true division `a / b` on naturals, raising `ZeroDivisionError`
when `b = 0`; the quotient is modelled exactly in `ℚ`. -/
def pyDivQ (a b : Nat) : Except PStr ℚ :=
  if b = 0 then .error (S "ZeroDivisionError") else .ok ((a : ℚ) / (b : ℚ))

/-- Left-to-right effectful map over `Except`, stopping at the first error --
the behaviour of a Python `for` loop whose body may raise. -/
def emap (f : α → Except PStr β) : List α → Except PStr (List β)
  | [] => .ok []
  | x :: xs =>
    match f x with
    | .error e => .error e
    | .ok y =>
      match emap f xs with
      | .error e => .error e
      | .ok ys => .ok (y :: ys)

/-- Left-to-right effectful filter over `Except` (a Python list comprehension
whose predicate may raise). -/
def efilter (p : α → Except PStr Bool) : List α → Except PStr (List α)
  | [] => .ok []
  | x :: xs =>
    match p x with
    | .error e => .error e
    | .ok b =>
      match efilter p xs with
      | .error e => .error e
      | .ok rest => .ok (if b then x :: rest else rest)

/-! ## Tokenizer (`initialize_wordlist`, main.py lines 192-229) -/

/-- `string.punctuation + '—“„'` (main.py line 217). -/
def pyPunct : PStr :=
  S "!\"#$%&\x27()*+,-./:;<=>?@[\\]^_\x60\x7b|\x7d~" ++ S "—“„"

/-- The ASCII digits deleted at main.py line 220. -/
def pyDigits : PStr := S "0123456789"

/-- The token sequence of `initialize_wordlist` (main.py lines 214-222):
newlines become spaces, punctuation and digits are deleted, the text is
split on single spaces and empty tokens are discarded. -/
def pyTokens (text : PStr) : List PStr :=
  let t1 := text.map (fun c => if c = '\n' then ' ' else c)
  let t2 := t1.filter (fun c => !(pyPunct.contains c))
  let t3 := t2.filter (fun c => !(pyDigits.contains c))
  (pySplitc ' ' t3).filter (fun t => !(t.isEmpty))

/-- `np.where(text == t)[0].tolist()` (main.py line 224): the increasing list
of 0-based positions of token `t` in the token sequence. -/
def wordIndex (toks : List PStr) (t : PStr) : List Nat :=
  (List.range toks.length).filter (fun i => toks[i]? == some t)

/-! ## Data model of the per-word records -/

/-- A raw per-definition record as returned by the structured-dictionary
client: its `text` field (a list of lines, the first being the composite
header line, main.py lines 44-46). -/
structure RawDef where
  text : List PStr
deriving DecidableEq

/-- A raw entry as returned by the structured-dictionary client
(`parser.fetch`): the `['text']` subfield of `pronunciations` and the list
of definitions. -/
structure RawWiktEntry where
  pronunciationsText : PStr
  definitions : List RawDef
deriving DecidableEq

/-- The `transliteration` field of a processed entry: collapsed to a single
string, or left as the per-definition list (main.py lines 61-62). -/
inductive TranslitField where
  | single : PStr → TranslitField
  | list : List PStr → TranslitField
deriving DecidableEq

/-- A processed definition (main.py lines 43-60). -/
structure ProcDef where
  text : List PStr
  lexeme : PStr
  gender : Option PStr
  plural : Option PStr
  participle : Option PStr
deriving DecidableEq

/-- A processed structured-dictionary entry (main.py lines 39-62). -/
structure WiktEntry where
  pronunciations : PStr
  transliteration : TranslitField
  definitions : List ProcDef
deriving DecidableEq

/-- One record of the `definitions` list of a Kentucky record: the dict
built at main.py lines 158-159 from the 6-tuple
`(pos, defi, gdr, part, pl, lex)`. -/
structure KYDef where
  partOfSpeech : Option PStr
  text : PStr
  gender : Option PStr
  participle : Option PStr
  plural : Option PStr
  lexeme : PStr
deriving DecidableEq

/-- The record returned by `_get_word_from_kentucky` (main.py lines 99,
158-160). -/
structure KYRecord where
  transliteration : PStr
  stem : PStr
  definitions : List KYDef
deriving DecidableEq

/-- A value stored in a per-word record of the wordlist. -/
inductive WLVal where
  | idx : List Nat → WLVal
  | num : Nat → WLVal
  | freq : ℚ → WLVal
  | wikt : List WiktEntry → WLVal
  | kent : KYRecord → WLVal
deriving DecidableEq

/-- The wordlist: an association of words to records, each record an
association of string keys to values (a Python dict of dicts). -/
abbrev Wordlist := List (PStr × List (PStr × WLVal))

/-- The record built for one word by `initialize_wordlist`
(main.py lines 224-228): key `index` holds the position list, key
`count (story)` its length, key `frequency (story)` the count divided by
the total token count with true division. -/
def initRecord (toks : List PStr) (t : PStr) : Except PStr (List (PStr × WLVal)) :=
  match pyDivQ (wordIndex toks t).length toks.length with
  | .error e => .error e
  | .ok f =>
    .ok [(S "index", WLVal.idx (wordIndex toks t)),
         (S "count (story)", WLVal.num (wordIndex toks t).length),
         (S "frequency (story)", WLVal.freq f)]

/-- `initialize_wordlist` (main.py lines 192-229): tokenize and build the
record of every distinct token. -/
def initialize_wordlist (text : PStr) : Except PStr Wordlist :=
  emap (fun t =>
      match initRecord (pyTokens text) t with
      | .error e => .error e
      | .ok r => .ok (t, r))
    (pyTokens text).dedup

/-! ## Structured-dictionary lookup (`wiktionary_definition`, lines 15-64) -/

/-- The transliteration extracted from a definition header
(main.py line 48): `txt.split('•')[1].split(')')[0].replace('(', '').strip()`.
The index `[1]` raises `IndexError` when the header has no `•`. -/
def defTranslit (header : PStr) : Except PStr PStr :=
  match (pySplitOn (S "•") header)[1]? with
  | none => .error (S "IndexError")
  | some part1 =>
    .ok (pyStrip (pyReplace (S "(") [] ((pySplitc ')' part1).headD [])))

/-- Processing of one raw definition (main.py lines 43-60); returns the
processed definition together with the transliteration appended to the
entry's transliteration list. -/
def processDef (d : RawDef) : Except PStr (ProcDef × PStr) :=
  match d.text[0]? with
  | none => .error (S "IndexError")
  | some header =>
    match defTranslit header with
    | .error e => .error e
    | .ok tr =>
      match (if pyContains (S "\xa0") header then
               match (pySplitOn (S "\xa0") header)[1]? with
               | none => Except.error (S "IndexError")
               | some seg => Except.ok (some ((pySplitc ',' seg).headD []))
             else Except.ok none) with
      | .error e => .error e
      | .ok gender =>
        match (if pyContains (S "plural") header then
                 match (pySplitOn (S "plural") header)[1]? with
                 | none => Except.error (S "IndexError")
                 | some seg => Except.ok (some (pyStrip seg))
               else Except.ok none) with
        | .error e => .error e
        | .ok plural =>
          match (if pyContains (S "participle") header then
                   match (pySplitOn (S "participle") header)[1]? with
                   | none => Except.error (S "IndexError")
                   | some seg =>
                     Except.ok (some (pyStrip (pyReplace (S "))") (S ")") seg)))
                 else Except.ok none) with
          | .error e => .error e
          | .ok participle =>
            .ok ({ text := d.text.drop 1, lexeme := pyStrip ((pySplitOn (S "•") header).headD []),
                   gender := gender, plural := plural, participle := participle }, tr)

/-- Processing of one raw entry (main.py lines 39-62): process every
definition, collect the transliterations in order, and collapse the list to
a single string exactly when the set of transliterations has one element. -/
def processEntry (e : RawWiktEntry) : Except PStr WiktEntry :=
  match emap processDef e.definitions with
  | .error er => .error er
  | .ok results =>
    .ok { pronunciations := e.pronunciationsText,
          transliteration :=
            if (results.map Prod.snd).dedup.length = 1 then
              TranslitField.single ((results.map Prod.snd).headD [])
            else TranslitField.list (results.map Prod.snd),
          definitions := results.map Prod.fst }

/-- One iteration of the loop of `wiktionary_definition` (main.py lines
36-63): fetch the word (which may raise), process the returned entries and
attach them under the key `wiktionary`. -/
def wiktStep (fetch : PStr → Except PStr (List RawWiktEntry))
    (wr : PStr × List (PStr × WLVal)) : Except PStr (PStr × List (PStr × WLVal)) :=
  match fetch wr.1 with
  | .error e => .error e
  | .ok raw =>
    match emap processEntry raw with
    | .error e => .error e
    | .ok entries => .ok (wr.1, wr.2 ++ [(S "wiktionary", WLVal.wikt entries)])

/-- `wiktionary_definition` (main.py lines 15-64), parametrised by the
external client's `fetch`.  The loop body has no exception handling: the
first raised error propagates and aborts the whole batch. -/
def wiktionary_definition (fetch : PStr → Except PStr (List RawWiktEntry))
    (wl : Wordlist) : Except PStr Wordlist :=
  emap (wiktStep fetch) wl

/-! ## DOM model for the Kentucky HTML pages -/

/-- A parsed HTML node: a text node (a `NavigableString`) or an element with
a tag name, the value of its `class` attribute (empty list = no `class`
attribute) and its children. -/
inductive Dom where
  | text : PStr → Dom
  | elem : PStr → List PStr → List Dom → Dom

mutual

/-- BeautifulSoup `==`: a `NavigableString` compares by its contents, a tag
compares by its full markup. -/
def Dom.beq : Dom → Dom → Bool
  | .text a, .text b => a == b
  | .elem t1 c1 cs1, .elem t2 c2 cs2 => t1 == t2 && c1 == c2 && Dom.beqL cs1 cs2
  | _, _ => false

/-- Pointwise `Dom.beq` on child lists. -/
def Dom.beqL : List Dom → List Dom → Bool
  | [], [] => true
  | x :: xs, y :: ys => Dom.beq x y && Dom.beqL xs ys
  | _, _ => false

end

mutual

/-- BeautifulSoup `.text` / `get_text()`: concatenation of every string in
the subtree. -/
def Dom.allText : Dom → PStr
  | .text s => s
  | .elem _ _ cs => Dom.allTextL cs

/-- `Dom.allText` over a child list. -/
def Dom.allTextL : List Dom → PStr
  | [] => []
  | d :: ds => Dom.allText d ++ Dom.allTextL ds

end

mutual

/-- All nodes of a subtree in document (pre-) order, each with the path of
child indices leading to it from the subtree root. -/
def Dom.nodes : Dom → List (List Nat × Dom)
  | .text s => [([], Dom.text s)]
  | .elem t c cs => ([], Dom.elem t c cs) :: Dom.nodesL 0 cs

/-- Nodes of the children `cs`, the first child having index `i`. -/
def Dom.nodesL : Nat → List Dom → List (List Nat × Dom)
  | _, [] => []
  | i, d :: ds =>
    (Dom.nodes d).map (fun pn => (i :: pn.1, pn.2)) ++ Dom.nodesL (i + 1) ds

end

/-- Strict descendants of a node in document order: what BeautifulSoup
`find` / `find_all` search (the node itself is excluded). -/
def Dom.descendants : Dom → List (List Nat × Dom)
  | .text _ => []
  | .elem _ _ cs => Dom.nodesL 0 cs

/-- Resolve a path to the node it addresses. -/
def Dom.getAt : Dom → List Nat → Option Dom
  | d, [] => some d
  | .text _, _ :: _ => none
  | .elem _ _ cs, i :: p =>
    match cs[i]? with
    | some c => Dom.getAt c p
    | none => none

/-- BeautifulSoup `find`: the path of the first descendant satisfying the
predicate, in document order. -/
def Dom.findD (root : Dom) (pred : Dom → Bool) : Option (List Nat) :=
  ((root.descendants.filter (fun pn => pred pn.2)).head?).map Prod.fst

/-- `tag.find(...)` on the node addressed by `base`: path of the first
matching strict descendant, as an absolute path from `root`. -/
def findInPath (root : Dom) (base : List Nat) (pred : Dom → Bool) : Option (List Nat) :=
  match root.getAt base with
  | none => none
  | some sub => (sub.findD pred).map (fun p => base ++ p)

/-- `tag.find_all(...)` on the node addressed by `base`: absolute paths of
all matching strict descendants in document order. -/
def findAllInPath (root : Dom) (base : List Nat) (pred : Dom → Bool) : List (List Nat) :=
  match root.getAt base with
  | none => []
  | some sub => (sub.descendants.filter (fun pn => pred pn.2)).map (fun pn => base ++ pn.1)

/-- `.parent`: drop the last step of the path (`none` at the document root,
where BeautifulSoup yields `None`). -/
def parentPath (p : List Nat) : Option (List Nat) :=
  match p with
  | [] => none
  | _ => some p.dropLast

/-- `.previous_sibling`: the same parent, previous child index (`none` for a
first child). -/
def prevSiblingPath (p : List Nat) : Option (List Nat) :=
  match p.getLast? with
  | none => none
  | some i => if i = 0 then none else some (p.dropLast ++ [i - 1])

/-- `.next_sibling`: the same parent, next child index, when that child
exists. -/
def nextSiblingPath (root : Dom) (p : List Nat) : Option (List Nat) :=
  match p.getLast? with
  | none => none
  | some i =>
    match root.getAt (p.dropLast ++ [i + 1]) with
    | some _ => some (p.dropLast ++ [i + 1])
    | none => none

/-- Python `==` between two possibly-`None` BeautifulSoup nodes given by
paths: `None == None` is `True`, `None` never equals a node, and nodes
compare with `Dom.beq`. -/
def optNodeEq (root : Dom) (a b : Option (List Nat)) : Bool :=
  match a, b with
  | none, none => true
  | some pa, some pb =>
    match root.getAt pa, root.getAt pb with
    | some na, some nb => Dom.beq na nb
    | _, _ => false
  | _, _ => false

/-- `x.previous_sibling.previous_sibling.previous_sibling` on a possibly-
`None` `x`: attribute access on `None` raises `AttributeError`; the final
sibling may be `None` without raising. -/
def sibling3 (start : Option (List Nat)) : Except PStr (Option (List Nat)) :=
  match start with
  | none => .error (S "AttributeError")
  | some p0 =>
    match prevSiblingPath p0 with
    | none => .error (S "AttributeError")
    | some p1 =>
      match prevSiblingPath p1 with
      | none => .error (S "AttributeError")
      | some p2 => .ok (prevSiblingPath p2)

/-- Match for `find('span', someClass)`: a `span` element whose `class`
attribute contains the given class. -/
def isSpanClass (cls : PStr) : Dom → Bool
  | Dom.elem t cs _ => t == S "span" && cs.contains cls
  | _ => false

/-- Match for `find(tagname)`. -/
def isTag (tg : PStr) : Dom → Bool
  | Dom.elem t _ _ => t == tg
  | _ => false

/-- Match for `find(string='...')`: a text node with exactly that string. -/
def isTextEq (s : PStr) : Dom → Bool
  | Dom.text t => t == s
  | _ => false

/-- BeautifulSoup `tag.string`: the single string of a tag that has exactly
one child, recursively. -/
def Dom.singleString : Dom → Option PStr
  | Dom.text s => some s
  | Dom.elem _ _ [c] => Dom.singleString c
  | Dom.elem _ _ _ => none

/-- Match for `find('span', string='...')`: a `span` whose `.string` equals
the given string. -/
def isSpanString (s : PStr) (d : Dom) : Bool :=
  isTag (S "span") d &&
    (match d.singleString with
     | some t => t == s
     | none => false)

/-- Match for `find('span', 'grammar', string=re.compile(r'gender.*'))`:
a `span` with class `grammar` whose `.string` matches the pattern, i.e.
contains `gender`. -/
def isGrammarGenderSpan (d : Dom) : Bool :=
  isSpanClass (S "grammar") d &&
    (match d.singleString with
     | some t => pyContains (S "gender") t
     | none => false)

/-! ## HTML-dictionary extractor (`_get_word_from_kentucky`, lines 67-160) -/

/-- The two structural assertions of `_get_word_from_kentucky` (main.py
lines 94-99): locate the first `span.grammar` and check it is preceded
(three siblings back) by the text node `Converting `; locate the first
`span.goodmatch` and check it is preceded by the text node
`\nThe base word for `.  Both assertion messages are the literal
`Can't find transliteration!` of the source.  On success, return the pair
`(transl.text, stem.text)`. -/
def kyAsserts (root : Dom) : Except PStr (PStr × PStr) :=
  let transl := root.findD (isSpanClass (S "grammar"))
  match sibling3 transl with
  | .error e => .error e
  | .ok a3 =>
    if optNodeEq root (root.findD (isTextEq (S "Converting "))) a3 then
      let stem := root.findD (isSpanClass (S "goodmatch"))
      match sibling3 stem with
      | .error e => .error e
      | .ok b3 =>
        if optNodeEq root (root.findD (isTextEq (S "\nThe base word for "))) b3 then
          match transl, stem with
          | some tp, some sp =>
            match root.getAt tp, root.getAt sp with
            | some tn, some sn => .ok (tn.allText, sn.allText)
            | _, _ => .error (S "AttributeError")
          | _, _ => .error (S "AttributeError")
        else .error (S "Can\x27t find transliteration!")
    else .error (S "Can\x27t find transliteration!")

/-- `stem.text in gm.parent.text` (main.py line 105), raising
`AttributeError` where Python would. -/
def parentTextContains (root : Dom) (stemText : PStr) (gm : List Nat) : Except PStr Bool :=
  match parentPath gm with
  | none => .error (S "AttributeError")
  | some pp =>
    match root.getAt pp with
    | none => .error (S "AttributeError")
    | some pn => .ok (pyContains stemText pn.allText)

/-- `'class' in gm.parent.attrs and 'lexeme' in gm.parent.attrs['class']`
(main.py lines 106-107). -/
def parentHasLexemeClass (root : Dom) (gm : List Nat) : Except PStr Bool :=
  match parentPath gm with
  | none => .error (S "AttributeError")
  | some pp =>
    match root.getAt pp with
    | none => .error (S "AttributeError")
    | some pn =>
      .ok (match pn with
           | Dom.elem _ cs _ => cs.contains (S "lexeme")
           | _ => false)

/-- `entr.find('span', 'lexeme').text.replace('(', '').strip()` (main.py
lines 113, 122): `AttributeError` when the entry has no `span.lexeme`. -/
def entryLexeme (root : Dom) (entr : List Nat) : Except PStr PStr :=
  match findInPath root entr (isSpanClass (S "lexeme")) with
  | none => .error (S "AttributeError")
  | some lx =>
    match root.getAt lx with
    | none => .error (S "AttributeError")
    | some ln => .ok (pyStrip (pyReplace (S "(") [] ln.allText))

/-- Part-of-speech extraction (main.py lines 124-131): `try`/`except
AttributeError` around `entr.find('span', 'grammar').text.split(',')[0]`;
`None` when the text starts with `plural` or `gender`. -/
def entryPos (root : Dom) (entr : List Nat) : Except PStr (Option PStr) :=
  match findInPath root entr (isSpanClass (S "grammar")) with
  | none => .ok none
  | some g =>
    match root.getAt g with
    | none => .ok none
    | some gn =>
      let pos := (pySplitc ',' gn.allText).headD []
      if pyStartsWith (S "plural") pos || pyStartsWith (S "gender") pos then .ok none
      else .ok (some (pyStrip pos))

/-- The body of the plural `try` block (main.py lines 133-139), before any
exception is caught: the deliberate `plural.text.split(',')[1]` sentinel
(raising `IndexError`), the sibling text split, and the Hebrew-class
append.  `attrs['class']` on a tag without a `class` attribute raises
`KeyError`, which the `except` clause does not catch. -/
def entryPluralRaw (root : Dom) (entr : List Nat) : Except PStr PStr :=
  match findInPath root entr (isSpanClass (S "grammar")) with
  | none => .error (S "AttributeError")
  | some g =>
    match root.getAt g with
    | none => .error (S "AttributeError")
    | some gn =>
      match (if !(pyStartsWith (S "plural") gn.allText) then
               match (pySplitc ',' gn.allText)[1]? with
               | none => Except.error (S "IndexError")
               | some _ => Except.ok ()
             else Except.ok ()) with
      | .error e => .error e
      | .ok _ =>
        match nextSiblingPath root g with
        | none => .error (S "AttributeError")
        | some ns =>
          match root.getAt ns with
          | none => .error (S "AttributeError")
          | some nsn =>
            match nsn with
            | Dom.elem _ _ _ => .error (S "AttributeError")
            | Dom.text nsStr =>
              let pt := pyStrip (pyReplace (S "(") [] ((pySplitc ',' nsStr).headD []))
              match nextSiblingPath root ns with
              | none => .error (S "AttributeError")
              | some ns2 =>
                match root.getAt ns2 with
                | none => .error (S "AttributeError")
                | some ns2n =>
                  match ns2n with
                  | Dom.text _ => .error (S "AttributeError")
                  | Dom.elem _ [] _ => .error (S "KeyError")
                  | Dom.elem _ cs _ =>
                    if cs == [S "hebrew"] then
                      .ok (pt ++ S " (" ++ ns2n.allText ++ S ")")
                    else .ok pt

/-- Plural extraction (main.py lines 132-141): `except (IndexError,
AttributeError)` yields `None`; any other error propagates. -/
def entryPlural (root : Dom) (entr : List Nat) : Except PStr (Option PStr) :=
  match entryPluralRaw root entr with
  | .ok v => .ok (some v)
  | .error e =>
    if e == S "IndexError" || e == S "AttributeError" then .ok none else .error e

/-- Participle extraction (main.py lines 142-146):
`entr.find('span', string='participle')`, then the following sibling's
text with commas removed; `AttributeError` when the labelled span is last
in its parent. -/
def entryParticiple (root : Dom) (entr : List Nat) : Except PStr (Option PStr) :=
  match findInPath root entr (isSpanString (S "participle")) with
  | none => .ok none
  | some p =>
    match nextSiblingPath root p with
    | none => .error (S "AttributeError")
    | some ns =>
      match root.getAt ns with
      | none => .error (S "AttributeError")
      | some nsn => .ok (some (pyStrip (pyReplace (S ",") [] nsn.allText)))

/-- Gender extraction (main.py lines 147-151). -/
def entryGender (root : Dom) (entr : List Nat) : Except PStr (Option PStr) :=
  match findInPath root entr isGrammarGenderSpan with
  | none => .ok none
  | some g =>
    match root.getAt g with
    | none => .ok none
    | some gn =>
      .ok (some (pyStrip (pyReplace (S "gender") [] (pyReplace (S ",") [] gn.allText))))

/-- `entr.find('span', 'definition').text` (main.py line 152). -/
def entryDefText (root : Dom) (entr : List Nat) : Except PStr PStr :=
  match findInPath root entr (isSpanClass (S "definition")) with
  | none => .error (S "AttributeError")
  | some d =>
    match root.getAt d with
    | none => .error (S "AttributeError")
    | some dn => .ok dn.allText

/-- Candidate matching and entry-container selection (main.py lines
104-115): good-match spans of the first `ul` filtered by stem-in-parent-text
and lexeme-class-on-parent; if any survive, their grandparents filtered by
stem-in-lexeme-text, else the parents of all good-match spans of the
`ul`. -/
def kyEntries (root : Dom) (stemText : PStr) : Except PStr (List (List Nat)) :=
  match root.findD (isTag (S "ul")) with
  | none => .error (S "AttributeError")
  | some ul =>
    match efilter (parentTextContains root stemText)
        (findAllInPath root ul (isSpanClass (S "goodmatch"))) with
    | .error e => .error e
    | .ok gms1 =>
      match efilter (parentHasLexemeClass root) gms1 with
      | .error e => .error e
      | .ok gms2 =>
        if gms2.length = 0 then
          match root.findD (isTag (S "ul")) with
          | none => .error (S "AttributeError")
          | some ul2 =>
            emap (fun gm =>
                match parentPath gm with
                | none => Except.error (S "AttributeError")
                | some pp => Except.ok pp)
              (findAllInPath root ul2 (isSpanClass (S "goodmatch")))
        else
          match emap (fun gm =>
              match parentPath gm with
              | none => Except.error (S "AttributeError")
              | some p1 =>
                match parentPath p1 with
                | none => Except.error (S "AttributeError")
                | some p2 => Except.ok p2) gms2 with
          | .error e => .error e
          | .ok entries =>
            match emap (entryLexeme root) entries with
            | .error e => .error e
            | .ok lexs =>
              .ok (((entries.zip lexs).filter
                  (fun el => pyContains stemText el.2)).map Prod.fst)

/-- The five fields collected by the entry loop (main.py lines 121-151), in
source order. -/
structure EntryFields where
  lexeme : PStr
  pos : Option PStr
  plural : Option PStr
  participle : Option PStr
  gender : Option PStr
deriving DecidableEq

/-- One iteration of the entry loop (main.py lines 121-151). -/
def kyFields (root : Dom) (entr : List Nat) : Except PStr EntryFields :=
  match entryLexeme root entr with
  | .error e => .error e
  | .ok lex =>
    match entryPos root entr with
    | .error e => .error e
    | .ok pos =>
      match entryPlural root entr with
      | .error e => .error e
      | .ok pl =>
        match entryParticiple root entr with
        | .error e => .error e
        | .ok part =>
          match entryGender root entr with
          | .error e => .error e
          | .ok gdr =>
            .ok { lexeme := lex, pos := pos, plural := pl, participle := part, gender := gdr }

/-- Everything `_get_word_from_kentucky` computes before deduplication:
the transliteration, the stem, and the zipped list of 6-tuples
`(pos, defi, gdr, part, pl, lex)` of main.py lines 155-157, in entry
order. -/
def kyTuples (root : Dom) : Except PStr (PStr × PStr × List KYDef) :=
  match kyAsserts root with
  | .error e => .error e
  | .ok ts =>
    match kyEntries root ts.2 with
    | .error e => .error e
    | .ok entries =>
      match emap (kyFields root) entries with
      | .error e => .error e
      | .ok fields =>
        match emap (entryDefText root) entries with
        | .error e => .error e
        | .ok defs =>
          .ok (ts.1, ts.2,
            List.zipWith (fun f d =>
                { partOfSpeech := f.pos, text := d, gender := f.gender,
                  participle := f.participle, plural := f.plural,
                  lexeme := f.lexeme : KYDef }) fields defs)

/-- `_get_word_from_kentucky` (main.py lines 67-160), on the page the
browser shows after submitting `word`.  After the submission the `word`
argument is never used again; the final `definitions` list is the
deduplication (the `set(...)` of main.py lines 155-157) of the extracted
tuples. -/
def get_word_from_kentucky (root : Dom) (word : PStr) : Except PStr KYRecord :=
  match kyTuples root with
  | .error e => .error e
  | .ok t => .ok { transliteration := t.1, stem := t.2.1, definitions := t.2.2.dedup }

/-! ## Kentucky lookup phase (`kentucky_definition`, lines 163-189) -/

/-- Resource/browser events of the Kentucky lookup phase. -/
inductive KEvent where
  | acquire
  | navigate
  | lookup : PStr → KEvent
  | release
deriving DecidableEq

/-- The word loop of `kentucky_definition` (main.py lines 187-188): each
word's page is fetched through the browser (modelled by `fetchPage`) and the
extracted record is attached under the key `kentucky`; the first raised
error aborts the loop.  The event trace records the per-word browser
interactions. -/
def kentuckyLoop (fetchPage : PStr → Dom) :
    Wordlist → List KEvent × Except PStr Wordlist
  | [] => ([], .ok [])
  | (w, r0) :: rest =>
    match get_word_from_kentucky (fetchPage w) w with
    | .error e => ([KEvent.lookup w], .error e)
    | .ok ky =>
      match kentuckyLoop fetchPage rest with
      | (evs, .error e) => (KEvent.lookup w :: evs, .error e)
      | (evs, .ok wl) =>
        (KEvent.lookup w :: evs,
         .ok ((w, r0 ++ [(S "kentucky", WLVal.kent ky)]) :: wl))

/-- `kentucky_definition` (main.py lines 163-189): acquire the browser
(`webdriver.Chrome()`), navigate to the dictionary, run the word loop and
return.  The source contains no `close`/`quit` call, so no `release` event
is ever emitted. -/
def kentucky_definition (fetchPage : PStr → Dom) (wl : Wordlist) :
    List KEvent × Except PStr Wordlist :=
  (KEvent.acquire :: KEvent.navigate :: (kentuckyLoop fetchPage wl).1,
   (kentuckyLoop fetchPage wl).2)

/-! ## Specification-side statement of the candidate-matching rule (C7) -/

/-- Spec wording: a good-match span is a candidate when its parent's text
contains the stem text and the parent carries the lexeme class. -/
def specParentPred (root : Dom) (stemText : PStr) (gm : List Nat) : Bool :=
  match parentPath gm with
  | none => false
  | some pp =>
    match root.getAt pp with
    | none => false
    | some pn =>
      pyContains stemText pn.allText &&
        (match pn with
         | Dom.elem _ cs _ => cs.contains (S "lexeme")
         | _ => false)

/-- Spec wording: the candidates are the good-match spans inside the
page's entry list (`ul`) satisfying `specParentPred`. -/
def specCandidates (root : Dom) (ul : List Nat) (stemText : PStr) : List (List Nat) :=
  (findAllInPath root ul (isSpanClass (S "goodmatch"))).filter
    (specParentPred root stemText)

/-- The value of a Python expression of type `bool` that cannot actually
raise, extracted from the `Except` model (used to state the candidate
filters as Boolean predicates). -/
def pyExBool (x : Except PStr Bool) : Bool :=
  match x with
  | .ok b => b
  | .error _ => false

/-- Whether an entry container's lexeme-class sub-element text (with `(`
removed and whitespace stripped) contains the stem text — the filter of
main.py line 115, as a Boolean predicate. -/
def lexContains (root : Dom) (stemText : PStr) (entr : List Nat) : Bool :=
  match entryLexeme root entr with
  | .ok lx => pyContains stemText lx
  | .error _ => false

/-- Spec wording: with at least one candidate, the entry containers are the
candidates' grandparents whose lexeme-class sub-element text (with `(`
removed and whitespace stripped) contains the stem text; with none, the
immediate parents of all good-match spans of the entry list, unfiltered. -/
def specEntryContainers (root : Dom) (ul : List Nat) (stemText : PStr) : List (List Nat) :=
  if specCandidates root ul stemText = [] then
    (findAllInPath root ul (isSpanClass (S "goodmatch"))).filterMap parentPath
  else
    ((specCandidates root ul stemText).filterMap
        (fun gm => (parentPath gm).bind parentPath)).filter
      (lexContains root stemText)

/-! ## Concrete pages and inputs for witnesses and counterexamples -/

/-- A page whose markup lacks the expected `Converting ` label chain: the
`span.grammar` is preceded by three unrelated text siblings. -/
def c5BadPage : Dom :=
  Dom.elem (S "html") []
    [Dom.text (S "x"), Dom.text (S "y"), Dom.text (S "z"),
     Dom.elem (S "span") [S "grammar"] [Dom.text (S "tr")]]

/-- A well-formed page: `Converting `/`The base word for ` label chains, a
`span.grammar` transliteration `TR`, a `span.goodmatch` stem `ST`, and one
entry list item whose lexeme contains the stem. -/
def c7Page : Dom :=
  Dom.elem (S "html") []
    [Dom.text (S "Converting "), Dom.text (S " "), Dom.text (S " "),
     Dom.elem (S "span") [S "grammar"] [Dom.text (S "TR")],
     Dom.text (S "\nThe base word for "), Dom.text (S " "), Dom.text (S " "),
     Dom.elem (S "span") [S "goodmatch"] [Dom.text (S "ST")],
     Dom.elem (S "ul") []
       [Dom.elem (S "li") []
         [Dom.elem (S "span") [S "lexeme"]
           [Dom.elem (S "span") [S "goodmatch"] [Dom.text (S "ST")],
            Dom.text (S "(foo")],
          Dom.elem (S "span") [S "grammar"] [Dom.text (S "noun, sg")],
          Dom.text (S " pl(x"),
          Dom.elem (S "span") [S "definition"] [Dom.text (S "meaning")]]]]

/-- Like `c7Page` but with the entry list item duplicated, producing two
identical extracted 6-tuples. -/
def c8Page : Dom :=
  Dom.elem (S "html") []
    [Dom.text (S "Converting "), Dom.text (S " "), Dom.text (S " "),
     Dom.elem (S "span") [S "grammar"] [Dom.text (S "TR")],
     Dom.text (S "\nThe base word for "), Dom.text (S " "), Dom.text (S " "),
     Dom.elem (S "span") [S "goodmatch"] [Dom.text (S "ST")],
     Dom.elem (S "ul") []
       [Dom.elem (S "li") []
         [Dom.elem (S "span") [S "lexeme"]
           [Dom.elem (S "span") [S "goodmatch"] [Dom.text (S "ST")],
            Dom.text (S "(foo")],
          Dom.elem (S "span") [S "grammar"] [Dom.text (S "noun, sg")],
          Dom.text (S " pl(x"),
          Dom.elem (S "span") [S "definition"] [Dom.text (S "meaning")]],
        Dom.elem (S "li") []
         [Dom.elem (S "span") [S "lexeme"]
           [Dom.elem (S "span") [S "goodmatch"] [Dom.text (S "ST")],
            Dom.text (S "(foo")],
          Dom.elem (S "span") [S "grammar"] [Dom.text (S "noun, sg")],
          Dom.text (S " pl(x"),
          Dom.elem (S "span") [S "definition"] [Dom.text (S "meaning")]]]]

/-- A page that passes both structural assertions but whose entry list is
empty, so that candidate matching (fallback included) yields no entry
containers. -/
def c10Page : Dom :=
  Dom.elem (S "html") []
    [Dom.text (S "Converting "), Dom.text (S " "), Dom.text (S " "),
     Dom.elem (S "span") [S "grammar"] [Dom.text (S "TR")],
     Dom.text (S "\nThe base word for "), Dom.text (S " "), Dom.text (S " "),
     Dom.elem (S "span") [S "goodmatch"] [Dom.text (S "ST")],
     Dom.elem (S "ul") [] []]

/-- A structured-dictionary client that fails on the word `alef` and
returns an empty entry list for every other word. -/
def c4FetchEx (w : PStr) : Except PStr (List RawWiktEntry) :=
  if w == S "alef" then .error (S "LookupFailure") else .ok []

/-- A two-word batch for exercising the lookup-failure behaviour. -/
def c4Wordlist : Wordlist := [(S "alef", []), (S "beys", [])]

/-- A raw structured-dictionary entry with three definitions whose headers
all produce the transliteration `ex`. -/
def c6Entry : RawWiktEntry :=
  { pronunciationsText := S "pron",
    definitions :=
      [{ text := [S "lex • (ex) one", S "def one"] },
       { text := [S "lex • (ex) two", S "def two"] },
       { text := [S "lex • (ex) three", S "def three"] }] }

/-- A raw entry with two differing transliterations `ex` and `other`. -/
def c6EntryDiff : RawWiktEntry :=
  { pronunciationsText := S "pron",
    definitions :=
      [{ text := [S "lex • (ex) one", S "def one"] },
       { text := [S "lex • (other) two", S "def two"] }] }

/-- A browser model showing the well-formed page `c7Page` for every
word. -/
def c9Fetch : PStr → Dom := fun _ => c7Page

/-- A one-word wordlist for the Kentucky phase runs. -/
def c9Wordlist : Wordlist := [(S "vort", [])]

/-- A browser model showing the degenerate page `c10Page` for every
word. -/
def c10Fetch : PStr → Dom := fun _ => c10Page

/-! ## Helper lemmas -/

theorem emap_ok_iff {α β : Type _} {f : α → Except PStr β} :
    ∀ {l : List α} {l2 : List β},
      emap f l = Except.ok l2 ↔ List.Forall₂ (fun a b => f a = Except.ok b) l l2 := by
  intro l
  induction l with
  | nil =>
    intro l2
    constructor
    · intro h
      simp only [emap] at h
      cases h
      exact List.Forall₂.nil
    · intro h
      cases h
      rfl
  | cons x xs ih =>
    intro l2
    constructor
    · intro h
      simp only [emap] at h
      cases hfx : f x with
      | error e => rw [hfx] at h; cases h
      | ok y =>
        rw [hfx] at h
        cases hrest : emap f xs with
        | error e => rw [hrest] at h; cases h
        | ok ys =>
          rw [hrest] at h
          cases h
          exact List.Forall₂.cons hfx (ih.mp hrest)
    · intro h
      cases h with
      | cons h1 h2 =>
        simp only [emap]
        rw [h1, ih.mpr h2]

theorem emap_ok_of_fn {α β : Type _} {f : α → Except PStr β} {g : α → β} :
    ∀ {l : List α}, (∀ x ∈ l, f x = Except.ok (g x)) → emap f l = Except.ok (l.map g) := by
  intro l
  induction l with
  | nil => intro _; rfl
  | cons x xs ih =>
    intro h
    have hx := h x (List.mem_cons_self x xs)
    have hxs := ih (fun y hy => h y (List.mem_cons_of_mem x hy))
    simp only [emap, List.map_cons]
    rw [hx, hxs]

theorem emap_err_of_mem {α β : Type _} {f : α → Except PStr β} {x : α} {e : PStr} :
    ∀ {l : List α}, x ∈ l → f x = Except.error e →
      ∃ e2, emap f l = Except.error e2 := by
  intro l
  induction l with
  | nil => intro h _; simp at h
  | cons a xs ih =>
    intro hmem hfx
    cases hfa : f a with
    | error ea => exact ⟨ea, by simp only [emap]; rw [hfa]⟩
    | ok y =>
      rcases List.mem_cons.mp hmem with rfl | hmem2
      · rw [hfa] at hfx; cases hfx
      · obtain ⟨e2, h2⟩ := ih hmem2 hfx
        exact ⟨e2, by simp only [emap]; rw [hfa, h2]⟩

theorem efilter_ok_of_fn {α : Type _} {p : α → Except PStr Bool} {q : α → Bool} :
    ∀ {l : List α}, (∀ x ∈ l, p x = Except.ok (q x)) →
      efilter p l = Except.ok (l.filter q) := by
  intro l
  induction l with
  | nil => intro _; rfl
  | cons x xs ih =>
    intro h
    have hx := h x (List.mem_cons_self x xs)
    have hxs := ih (fun y hy => h y (List.mem_cons_of_mem x hy))
    simp only [efilter, List.filter_cons]
    rw [hx, hxs]

theorem lookup_map_self {β : Type _} {g : PStr → β} :
    ∀ {l : List PStr} {t : PStr}, t ∈ l →
      List.lookup t (l.map (fun x => (x, g x))) = some (g t) := by
  intro l
  induction l with
  | nil => intro t h; simp at h
  | cons a xs ih =>
    intro t h
    rcases List.mem_cons.mp h with rfl | h2
    · simp [List.lookup]
    · by_cases heq : t = a
      · subst heq; simp [List.lookup]
      · have hne : (t == a) = false := by simp [heq]
        simp only [List.map_cons, List.lookup]
        rw [hne]
        exact ih h2

theorem alleq_dedup {α : Type _} [DecidableEq α] :
    ∀ (l : List α) (c : α), (∀ a ∈ l, a = c) → l ≠ [] → l.dedup = [c] := by
  intro l
  induction l with
  | nil => intro c _ h; cases h rfl
  | cons a xs ih =>
    intro c hall _
    have ha : a = c := hall a (List.mem_cons_self a xs)
    cases xs with
    | nil => simp [List.dedup_cons_of_not_mem, ha]
    | cons b ys =>
      have hb : b = c := hall b (by simp)
      have hmem : a ∈ b :: ys := by rw [ha, hb]; exact List.mem_cons_self c ys
      rw [List.dedup_cons_of_mem hmem]
      exact ih c (fun x hx => hall x (List.mem_cons_of_mem a hx)) (by simp)

theorem dedup_length_one {α : Type _} [DecidableEq α] {l : List α} (hne : l ≠ []) :
    l.dedup.length = 1 ↔ ∀ a ∈ l, ∀ b ∈ l, a = b := by
  constructor
  · intro h a ha b hb
    obtain ⟨x, hx⟩ := List.length_eq_one.mp h
    have ha2 : a ∈ l.dedup := List.mem_dedup.mpr ha
    have hb2 : b ∈ l.dedup := List.mem_dedup.mpr hb
    rw [hx] at ha2 hb2
    simp at ha2 hb2
    rw [ha2, hb2]
  · intro h
    obtain ⟨c, hc⟩ : ∃ c, c ∈ l := by
      cases l with
      | nil => cases hne rfl
      | cons a xs => exact ⟨a, List.mem_cons_self a xs⟩
    rw [alleq_dedup l c (fun a ha => h a ha c hc) hne]
    rfl

theorem wordIndex_pairwise (toks : List PStr) (t : PStr) :
    List.Pairwise (· < ·) (wordIndex toks t) :=
  List.Pairwise.sublist (List.filter_sublist _) (List.pairwise_lt_range _)

theorem wordIndex_mem (toks : List PStr) (t : PStr) (i : Nat) :
    i ∈ wordIndex toks t ↔ toks[i]? = some t := by
  simp only [wordIndex, List.mem_filter, List.mem_range, beq_iff_eq]
  constructor
  · exact fun h => h.2
  · intro h
    refine ⟨?_, h⟩
    have := List.getElem?_eq_some.mp h
    exact this.1

theorem getAt_append : ∀ (p q : List Nat) (d : Dom),
    d.getAt (p ++ q) = (d.getAt p).bind (fun n => Dom.getAt n q) := by
  intro p
  induction p with
  | nil => intro q d; cases d <;> rfl
  | cons i p ih =>
    intro q d
    cases d with
    | text s => rfl
    | elem t c cs =>
      simp only [List.cons_append, Dom.getAt]
      cases h : cs[i]? with
      | none => simp
      | some ch => simp [ih]

theorem nodesL_mem : ∀ (cs : List Dom) (i : Nat) (pn : List Nat × Dom),
    pn ∈ Dom.nodesL i cs →
      ∃ j q c, pn.1 = j :: q ∧ i ≤ j ∧ cs[j - i]? = some c ∧ (q, pn.2) ∈ c.nodes := by
  intro cs
  induction cs with
  | nil => intro i pn h; simp [Dom.nodesL] at h
  | cons d ds ih =>
    intro i pn h
    simp only [Dom.nodesL, List.mem_append, List.mem_map] at h
    rcases h with ⟨a, ha, rfl⟩ | h
    · exact ⟨i, a.1, d, rfl, Nat.le_refl i, by simp, by simpa using ha⟩
    · obtain ⟨j, q, c, h1, h2, h3, h4⟩ := ih (i + 1) pn h
      refine ⟨j, q, c, h1, by omega, ?_, h4⟩
      have hj : j - i = (j - (i + 1)) + 1 := by omega
      rw [hj]
      simpa using h3

theorem nodes_getAt : ∀ (q : List Nat) (n d : Dom), (q, n) ∈ d.nodes → d.getAt q = some n := by
  intro q
  induction q with
  | nil =>
    intro n d h
    cases d with
    | text s =>
      simp only [Dom.nodes, List.mem_singleton, Prod.mk.injEq] at h
      rw [h.2]
      rfl
    | elem t c cs =>
      simp only [Dom.nodes, List.mem_cons, Prod.mk.injEq] at h
      rcases h with ⟨_, rfl⟩ | h
      · rfl
      · exfalso
        obtain ⟨j, q', c', h1, _⟩ := nodesL_mem cs 0 ([], n) h
        cases h1
  | cons j q ih =>
    intro n d h
    cases d with
    | text s =>
      simp only [Dom.nodes, List.mem_singleton, Prod.mk.injEq] at h
      cases h.1
    | elem t c cs =>
      simp only [Dom.nodes, List.mem_cons, Prod.mk.injEq] at h
      rcases h with ⟨h1, _⟩ | h
      · cases h1
      · obtain ⟨j0, q0, c0, h1, _, h3, h4⟩ := nodesL_mem cs 0 (j :: q, n) h
        have h1' : j :: q = j0 :: q0 := h1
        injection h1' with hj hq
        subst hj
        subst hq
        simp only [Nat.sub_zero] at h3
        simp only [Dom.getAt]
        rw [h3]
        exact ih n c0 h4

theorem descendants_mem {d : Dom} {pn : List Nat × Dom} (h : pn ∈ d.descendants) :
    pn.1 ≠ [] ∧ d.getAt pn.1 = some pn.2 := by
  cases d with
  | text s => simp [Dom.descendants] at h
  | elem t c cs =>
    obtain ⟨j, q, c0, h1, _, h3, h4⟩ := nodesL_mem cs 0 pn h
    simp only [Nat.sub_zero] at h3
    constructor
    · rw [h1]; simp
    · rw [h1]
      simp only [Dom.getAt]
      rw [h3]
      exact nodes_getAt q pn.2 c0 h4

theorem findAllInPath_mem {root : Dom} {base : List Nat} {pred : Dom → Bool}
    {gm : List Nat} (h : gm ∈ findAllInPath root base pred) :
    ∃ q n, gm = base ++ q ∧ q ≠ [] ∧ root.getAt gm = some n ∧ pred n = true := by
  unfold findAllInPath at h
  cases hb : root.getAt base with
  | none => rw [hb] at h; simp at h
  | some sub =>
    rw [hb] at h
    simp only [List.mem_map] at h
    obtain ⟨pn, hpn, rfl⟩ := h
    have hf := List.mem_filter.mp hpn
    have hd := descendants_mem hf.1
    refine ⟨pn.1, pn.2, rfl, hd.1, ?_, hf.2⟩
    rw [getAt_append, hb]
    simpa using hd.2

theorem findD_mem {root : Dom} {pred : Dom → Bool} {p : List Nat}
    (h : root.findD pred = some p) :
    ∃ n, p ≠ [] ∧ root.getAt p = some n ∧ pred n = true := by
  unfold Dom.findD at h
  cases hl : (root.descendants.filter (fun pn => pred pn.2)).head? with
  | none => rw [hl] at h; cases h
  | some pn =>
    rw [hl] at h
    have h' : some pn.1 = some p := h
    injection h' with hp
    subst hp
    have hpn : pn ∈ root.descendants.filter (fun pn => pred pn.2) := by
      cases hlist : root.descendants.filter (fun pn => pred pn.2) with
      | nil => rw [hlist] at hl; cases hl
      | cons a xs =>
        rw [hlist] at hl
        simp only [List.head?_cons] at hl
        injection hl with ha
        rw [ha]
        exact List.mem_cons_self pn xs
    have hf := List.mem_filter.mp hpn
    have hd := descendants_mem hf.1
    exact ⟨pn.2, hd.1, hd.2, hf.2⟩

theorem getAt_prefix {root : Dom} {p q : List Nat} {n : Dom}
    (h : root.getAt (p ++ q) = some n) : ∃ m, root.getAt p = some m := by
  rw [getAt_append] at h
  cases hm : root.getAt p with
  | none => rw [hm] at h; cases h
  | some m => exact ⟨m, rfl⟩

theorem parentPath_eq {p : List Nat} (h : p ≠ []) : parentPath p = some p.dropLast := by
  cases p with
  | nil => cases h rfl
  | cons a l => rfl

theorem getAt_parent {root : Dom} {p : List Nat} {n : Dom} (hne : p ≠ [])
    (h : root.getAt p = some n) : ∃ m, root.getAt p.dropLast = some m := by
  apply getAt_prefix (q := [p.getLast hne])
  rw [List.dropLast_append_getLast hne]
  exact h

theorem filterMap_eq_map_of_fn {α β : Type _} {f : α → Option β} {g : α → β} :
    ∀ {l : List α}, (∀ x ∈ l, f x = some (g x)) → l.filterMap f = l.map g := by
  intro l
  induction l with
  | nil => intro _; rfl
  | cons x xs ih =>
    intro h
    rw [List.filterMap_cons, h x (List.mem_cons_self x xs),
      ih (fun y hy => h y (List.mem_cons_of_mem x hy)), List.map_cons]

theorem filter_filter_mine {α : Type _} {p q : α → Bool} :
    ∀ (l : List α), (l.filter p).filter q = l.filter (fun a => p a && q a) := by
  intro l
  induction l with
  | nil => rfl
  | cons x xs ih =>
    cases hp : p x <;> cases hq : q x <;>
      simp [List.filter_cons, hp, hq, ih]

theorem filter_congr_mine {α : Type _} {p q : α → Bool} :
    ∀ {l : List α}, (∀ x ∈ l, p x = q x) → l.filter p = l.filter q := by
  intro l
  induction l with
  | nil => intro _; rfl
  | cons x xs ih =>
    intro h
    have hx := h x (List.mem_cons_self x xs)
    have hxs := ih (fun y hy => h y (List.mem_cons_of_mem x hy))
    simp only [List.filter_cons, hx, hxs]

theorem zip_filter_map_lex {root : Dom} {st : PStr} :
    ∀ {entries : List (List Nat)} {lexs : List PStr},
      List.Forall₂ (fun e lx => entryLexeme root e = Except.ok lx) entries lexs →
      ((entries.zip lexs).filter (fun el => pyContains st el.2)).map Prod.fst
        = entries.filter (lexContains root st) := by
  intro entries lexs h
  induction h with
  | nil => rfl
  | @cons e lx es lxs h1 h2 ih =>
    simp only [List.zip_cons_cons, List.filter_cons, lexContains, h1]
    cases hc : pyContains st lx <;> simp [hc, ih]

theorem forall2_eq_map {α β : Type _} {R : α → β → Prop} {g : α → β} :
    ∀ {l : List α} {l2 : List β}, List.Forall₂ R l l2 →
      (∀ a ∈ l, ∀ b, R a b → b = g a) → l2 = l.map g := by
  intro l l2 h
  induction h with
  | nil => intro _; rfl
  | @cons a b as bs h1 h2 ih =>
    intro hp
    rw [List.map_cons,
      ih (fun x hx y hy => hp x (List.mem_cons_of_mem a hx) y hy),
      hp a (List.mem_cons_self a as) b h1]

theorem initRecord_ok {toks : List PStr} (t : PStr) (h : toks.length ≠ 0) :
    initRecord toks t = Except.ok
      [(S "index", WLVal.idx (wordIndex toks t)),
       (S "count (story)", WLVal.num (wordIndex toks t).length),
       (S "frequency (story)",
        WLVal.freq (((wordIndex toks t).length : ℚ) / (toks.length : ℚ)))] := by
  unfold initRecord pyDivQ
  rw [if_neg h]

theorem initialize_wordlist_ok {text : PStr} (h : pyTokens text ≠ []) :
    initialize_wordlist text = Except.ok
      ((pyTokens text).dedup.map (fun t =>
        (t, [(S "index", WLVal.idx (wordIndex (pyTokens text) t)),
             (S "count (story)", WLVal.num (wordIndex (pyTokens text) t).length),
             (S "frequency (story)",
              WLVal.freq (((wordIndex (pyTokens text) t).length : ℚ) /
                ((pyTokens text).length : ℚ)))]))) := by
  unfold initialize_wordlist
  apply emap_ok_of_fn
  intro x _
  rw [initRecord_ok x (fun hl => h (List.length_eq_zero.mp hl))]

theorem wiktStep_ok {fetch : PStr → Except PStr (List RawWiktEntry)}
    {wr : PStr × List (PStr × WLVal)} {v : PStr × List (PStr × WLVal)}
    (h : wiktStep fetch wr = Except.ok v) :
    ∃ es, v = (wr.1, wr.2 ++ [(S "wiktionary", WLVal.wikt es)]) := by
  unfold wiktStep at h
  split at h
  · cases h
  · split at h
    · cases h
    · injection h with hv
      exact ⟨_, hv.symm⟩

theorem wiktionary_mem {fetch : PStr → Except PStr (List RawWiktEntry)} :
    ∀ {wl wl2 : Wordlist}, wiktionary_definition fetch wl = Except.ok wl2 →
      ∀ {w : PStr} {r0 : List (PStr × WLVal)}, (w, r0) ∈ wl →
        ∃ es, (w, r0 ++ [(S "wiktionary", WLVal.wikt es)]) ∈ wl2 := by
  intro wl
  induction wl with
  | nil => intro wl2 _ w r0 hm; simp at hm
  | cons wr rest ih =>
    intro wl2 h w r0 hm
    simp only [wiktionary_definition, emap] at h
    cases hs : wiktStep fetch wr with
    | error e => rw [hs] at h; cases h
    | ok v =>
      rw [hs] at h
      cases hrest : emap (wiktStep fetch) rest with
      | error e => rw [hrest] at h; cases h
      | ok vs =>
        rw [hrest] at h
        injection h with hw
        subst hw
        rcases List.mem_cons.mp hm with heq | hm2
        · obtain ⟨es, hv⟩ := wiktStep_ok hs
          rw [← heq] at hv
          exact ⟨es, by rw [hv]; exact List.mem_cons_self _ _⟩
        · obtain ⟨es, hmem⟩ := ih hrest hm2
          exact ⟨es, List.mem_cons_of_mem v hmem⟩

theorem kentuckyLoop_no_release (fp : PStr → Dom) :
    ∀ wl : Wordlist, ((kentuckyLoop fp wl).1).count KEvent.release = 0 := by
  intro wl
  induction wl with
  | nil => rfl
  | cons wr rest ih =>
    obtain ⟨w, r0⟩ := wr
    simp only [kentuckyLoop]
    cases hk : get_word_from_kentucky (fp w) w with
    | error e => rfl
    | ok ky =>
      cases hrest : kentuckyLoop fp rest with
      | mk evs r =>
        rw [hrest] at ih
        cases r with
        | error e => simpa [List.count_cons] using ih
        | ok wlr => simpa [List.count_cons] using ih

theorem kentuckyLoop_mem {fp : PStr → Dom} :
    ∀ {wl wl2 : Wordlist}, (kentuckyLoop fp wl).2 = Except.ok wl2 →
      ∀ {w : PStr} {r0 : List (PStr × WLVal)}, (w, r0) ∈ wl →
        ∃ ky, get_word_from_kentucky (fp w) w = Except.ok ky ∧
          (w, r0 ++ [(S "kentucky", WLVal.kent ky)]) ∈ wl2 := by
  intro wl
  induction wl with
  | nil => intro wl2 _ w r0 hm; simp at hm
  | cons wr rest ih =>
    obtain ⟨w1, r1⟩ := wr
    intro wl2 h w r0 hm
    simp only [kentuckyLoop] at h
    cases hk : get_word_from_kentucky (fp w1) w1 with
    | error e => rw [hk] at h; cases h
    | ok ky1 =>
      rw [hk] at h
      cases hrest : kentuckyLoop fp rest with
      | mk evs r =>
        rw [hrest] at h
        cases r with
        | error e => cases h
        | ok wlr =>
          have h' : ((w1, r1 ++ [(S "kentucky", WLVal.kent ky1)]) :: wlr) = wl2 := by
            injection h
          subst h'
          rcases List.mem_cons.mp hm with heq | hm2
          · have hw : w = w1 := congrArg Prod.fst heq
            have hr : r0 = r1 := congrArg Prod.snd heq
            subst hw
            subst hr
            exact ⟨ky1, hk, List.mem_cons_self _ _⟩
          · obtain ⟨ky, h1, h2⟩ := ih (by rw [hrest]) hm2
            exact ⟨ky, h1, List.mem_cons_of_mem _ h2⟩

/-! ## Claims -/

/-- C1: for every input text, tokenization (newlines to spaces, deletion of
the punctuation set plus em-dash and the curly double quotes, deletion of
ASCII digits, split on single spaces discarding empty tokens — all embodied
in `pyTokens`) maps each distinct token `t` to a record whose `index` is
exactly the increasing list of 0-based positions of `t` in the token
sequence, whose count equals the length of that list, and whose frequency
is count divided by the total token count with true (rational, not integer)
division. -/
theorem C1_tokenize_index_count_frequency (text t : PStr) (h : t ∈ pyTokens text) :
    ∃ wl, initialize_wordlist text = Except.ok wl ∧
      wl.lookup t = some
        [(S "index", WLVal.idx (wordIndex (pyTokens text) t)),
         (S "count (story)", WLVal.num (wordIndex (pyTokens text) t).length),
         (S "frequency (story)",
          WLVal.freq (((wordIndex (pyTokens text) t).length : ℚ) /
            ((pyTokens text).length : ℚ)))] ∧
      List.Pairwise (· < ·) (wordIndex (pyTokens text) t) ∧
      (∀ i, i ∈ wordIndex (pyTokens text) t ↔ (pyTokens text)[i]? = some t) := by
  have hne : pyTokens text ≠ [] := by
    intro hl
    rw [hl] at h
    cases h
  exact ⟨_, initialize_wordlist_ok hne,
    lookup_map_self (List.mem_dedup.mpr h),
    wordIndex_pairwise _ _, fun i => wordIndex_mem _ _ i⟩

/-- Witness for C1 at the concrete text `a b a` and token `a`. -/
theorem C1_tokenize_witness :
    ∃ wl, initialize_wordlist (S "a b a") = Except.ok wl ∧
      wl.lookup (S "a") = some
        [(S "index", WLVal.idx (wordIndex (pyTokens (S "a b a")) (S "a"))),
         (S "count (story)", WLVal.num (wordIndex (pyTokens (S "a b a")) (S "a")).length),
         (S "frequency (story)",
          WLVal.freq (((wordIndex (pyTokens (S "a b a")) (S "a")).length : ℚ) /
            ((pyTokens (S "a b a")).length : ℚ)))] ∧
      List.Pairwise (· < ·) (wordIndex (pyTokens (S "a b a")) (S "a")) ∧
      (∀ i, i ∈ wordIndex (pyTokens (S "a b a")) (S "a") ↔
        (pyTokens (S "a b a"))[i]? = some (S "a")) :=
  C1_tokenize_index_count_frequency (S "a b a") (S "a") (by decide)

/-- C2 (counterexample): on the text `a`, the record of the word `a` has
keys `index`, `count (story)` and `frequency (story)`; there is no key
named exactly `count` nor one named exactly `frequency`. -/
theorem C2_counterexample :
    ((initialize_wordlist (S "a")).toOption.bind (fun wl => wl.lookup (S "a"))).map
        (fun r => r.map Prod.fst)
      = some [S "index", S "count (story)", S "frequency (story)"] ∧
    ((initialize_wordlist (S "a")).toOption.bind (fun wl => wl.lookup (S "a"))).map
        (fun r => (r.lookup (S "count"), r.lookup (S "frequency")))
      = some (none, none) :=
  ⟨rfl, rfl⟩

/-- C2 (amended): the record of every word stores the position list under
the key `index`, the count under the key `count (story)` and the frequency
under the key `frequency (story)` (there are no keys `count` or
`frequency`); the dictionary phases attach their results under the optional
keys `wiktionary` and `kentucky`. -/
theorem C2_record_keys (text t : PStr) (h : t ∈ pyTokens text) :
    ∃ wl r, initialize_wordlist text = Except.ok wl ∧ wl.lookup t = some r ∧
      r.map Prod.fst = [S "index", S "count (story)", S "frequency (story)"] ∧
      r.lookup (S "count") = none ∧ r.lookup (S "frequency") = none ∧
      (∀ fetch wl2, wiktionary_definition fetch wl = Except.ok wl2 →
        ∃ es, (t, r ++ [(S "wiktionary", WLVal.wikt es)]) ∈ wl2) ∧
      (∀ fp wl2, (kentucky_definition fp wl).2 = Except.ok wl2 →
        ∃ ky, (t, r ++ [(S "kentucky", WLVal.kent ky)]) ∈ wl2) := by
  have hne : pyTokens text ≠ [] := by
    intro hl
    rw [hl] at h
    cases h
  have hd : t ∈ (pyTokens text).dedup := List.mem_dedup.mpr h
  refine ⟨_, _, initialize_wordlist_ok hne, lookup_map_self hd, rfl, rfl, rfl, ?_, ?_⟩
  · intro fetch wl2 h2
    exact wiktionary_mem h2 (List.mem_map.mpr ⟨t, hd, rfl⟩)
  · intro fp wl2 h2
    obtain ⟨ky, _, hm⟩ := kentuckyLoop_mem h2 (List.mem_map.mpr ⟨t, hd, rfl⟩)
    exact ⟨ky, hm⟩

/-- Witness for C2 (amended) at the concrete text `a b a` and token `b`. -/
theorem C2_record_keys_witness :
    ∃ wl r, initialize_wordlist (S "a b a") = Except.ok wl ∧
      wl.lookup (S "b") = some r ∧
      r.map Prod.fst = [S "index", S "count (story)", S "frequency (story)"] ∧
      r.lookup (S "count") = none ∧ r.lookup (S "frequency") = none ∧
      (∀ fetch wl2, wiktionary_definition fetch wl = Except.ok wl2 →
        ∃ es, (S "b", r ++ [(S "wiktionary", WLVal.wikt es)]) ∈ wl2) ∧
      (∀ fp wl2, (kentucky_definition fp wl).2 = Except.ok wl2 →
        ∃ ky, (S "b", r ++ [(S "kentucky", WLVal.kent ky)]) ∈ wl2) :=
  C2_record_keys (S "a b a") (S "b") (by decide)

/-- C3 (counterexample): the text `12 .` strips to an empty token sequence,
and `initialize_wordlist` returns the empty wordlist successfully instead of
failing with an ArithmeticError-kind error: the frequency loop never runs,
so no division occurs. -/
theorem C3_counterexample : initialize_wordlist (S "12 .") = Except.ok [] := rfl

/-- C3 (amended): on every input whose stripped-and-split token sequence is
empty, tokenization returns the empty wordlist and raises no error. -/
theorem C3_empty_tokens_ok (text : PStr) (h : pyTokens text = []) :
    initialize_wordlist text = Except.ok [] := by
  unfold initialize_wordlist
  rw [h]
  rfl

/-- Witness for C3 (amended) at the concrete text `!!`. -/
theorem C3_empty_tokens_witness : initialize_wordlist (S "!!") = Except.ok [] :=
  C3_empty_tokens_ok (S "!!") (by decide)

/-- C4 (counterexample): with a client failing on `alef` and succeeding on
`beys`, `wiktionary_definition` on the batch `[alef, beys]` propagates the
failure and returns no wordlist at all: the other word's result is not
returned, contradicting the claim that the batch continues. -/
theorem C4_counterexample :
    wiktionary_definition c4FetchEx c4Wordlist = Except.error (S "LookupFailure") ∧
    c4FetchEx (S "beys") = Except.ok [] ∧
    ¬ ∃ wl2, wiktionary_definition c4FetchEx c4Wordlist = Except.ok wl2 := by
  refine ⟨rfl, rfl, ?_⟩
  rintro ⟨wl2, h⟩
  have h2 : (Except.error (S "LookupFailure") : Except PStr Wordlist) = Except.ok wl2 := by
    calc (Except.error (S "LookupFailure") : Except PStr Wordlist)
        = wiktionary_definition c4FetchEx c4Wordlist := rfl
      _ = Except.ok wl2 := h
  cases h2

/-- C4 (amended): the loop of `wiktionary_definition` has no exception
handling: if the client's fetch fails for any word of the batch, the whole
invocation fails with an error and no word's results are returned. -/
theorem C4_fetch_failure_aborts (fetch : PStr → Except PStr (List RawWiktEntry))
    (wl : Wordlist) (w e : PStr)
    (hmem : w ∈ wl.map Prod.fst) (hf : fetch w = Except.error e) :
    ∃ e2, wiktionary_definition fetch wl = Except.error e2 := by
  obtain ⟨wr, hwr, hw1⟩ := List.mem_map.mp hmem
  have hstep : wiktStep fetch wr = Except.error e := by
    unfold wiktStep
    rw [hw1, hf]
  exact emap_err_of_mem hwr hstep

/-- Witness for C4 (amended) at the concrete client `c4FetchEx` and batch
`c4Wordlist`. -/
theorem C4_fetch_failure_witness :
    ∃ e2, wiktionary_definition c4FetchEx c4Wordlist = Except.error e2 :=
  C4_fetch_failure_aborts c4FetchEx c4Wordlist (S "alef") (S "LookupFailure")
    (by decide) rfl

/-- C5 (counterexample): on a page lacking the expected `Converting ` label
chain, the extractor raises the fixed assertion message
`Can't find transliteration!` — the same error for two different words, not
containing the word — so the fatal error does not identify the word being
processed. -/
theorem C5_counterexample :
    get_word_from_kentucky c5BadPage (S "alef")
        = Except.error (S "Can\x27t find transliteration!") ∧
    get_word_from_kentucky c5BadPage (S "beys")
        = Except.error (S "Can\x27t find transliteration!") ∧
    S "alef" ≠ S "beys" ∧
    pyContains (S "alef") (S "Can\x27t find transliteration!") = false :=
  ⟨rfl, rfl, by decide, by decide⟩

/-- C5 (amended): when the structural markup checks fail, the extractor
raises a fatal error and returns no record for the word, but the error does
not identify the word being processed: the extractor's result is the same
for every submitted word. -/
theorem C5_assert_error_word_independent (root : Dom) (w1 w2 e : PStr)
    (h : kyAsserts root = Except.error e) :
    get_word_from_kentucky root w1 = Except.error e ∧
    get_word_from_kentucky root w1 = get_word_from_kentucky root w2 := by
  constructor
  · unfold get_word_from_kentucky kyTuples
    rw [h]
  · rfl

/-- Witness for C5 (amended) at the concrete malformed page `c5BadPage`. -/
theorem C5_assert_error_witness :
    get_word_from_kentucky c5BadPage (S "gimel")
        = Except.error (S "Can\x27t find transliteration!") ∧
    get_word_from_kentucky c5BadPage (S "gimel")
        = get_word_from_kentucky c5BadPage (S "daled") :=
  C5_assert_error_word_independent c5BadPage (S "gimel") (S "daled")
    (S "Can\x27t find transliteration!") rfl

/-- C6: for a structured-dictionary entry with at least one definition, if
every definition's header yields the identical transliteration string the
entry's `transliteration` field is that single scalar string, and if at
least two differ it stays the list of per-definition transliterations. -/
theorem C6_transliteration_collapse (e : RawWiktEntry) (we : WiktEntry)
    (hne : e.definitions ≠ [])
    (hok : processEntry e = Except.ok we) :
    ∃ rs, emap processDef e.definitions = Except.ok rs ∧
      ((∀ a ∈ rs.map Prod.snd, ∀ b ∈ rs.map Prod.snd, a = b) →
        we.transliteration = TranslitField.single ((rs.map Prod.snd).headD [])) ∧
      ((∃ a ∈ rs.map Prod.snd, ∃ b ∈ rs.map Prod.snd, a ≠ b) →
        we.transliteration = TranslitField.list (rs.map Prod.snd)) := by
  unfold processEntry at hok
  cases hr : emap processDef e.definitions with
  | error er => rw [hr] at hok; cases hok
  | ok rs =>
    rw [hr] at hok
    injection hok with hwe
    have hlen : e.definitions.length = rs.length := (emap_ok_iff.mp hr).length_eq
    have hrs : rs.map Prod.snd ≠ [] := by
      intro hl
      have h0 : rs = [] := by simpa using hl
      rw [h0] at hlen
      exact hne (List.length_eq_zero.mp hlen)
    refine ⟨rs, rfl, ?_, ?_⟩
    · intro hall
      have h1 : (rs.map Prod.snd).dedup.length = 1 := (dedup_length_one hrs).mpr hall
      rw [← hwe]
      dsimp only
      rw [if_pos h1]
    · rintro ⟨a, ha, b, hb, hab⟩
      have h1 : (rs.map Prod.snd).dedup.length ≠ 1 := by
        intro h1
        exact hab ((dedup_length_one hrs).mp h1 a ha b hb)
      rw [← hwe]
      dsimp only
      rw [if_neg h1]

/-- Witness for C6 at the concrete entry `c6Entry`, whose three definitions
all yield the transliteration `ex`. -/
theorem C6_transliteration_witness :
    ∃ rs, emap processDef c6Entry.definitions = Except.ok rs ∧
      ((∀ a ∈ rs.map Prod.snd, ∀ b ∈ rs.map Prod.snd, a = b) →
        WiktEntry.transliteration
            { pronunciations := S "pron",
              transliteration := TranslitField.single (S "ex"),
              definitions :=
                [{ text := [S "def one"], lexeme := S "lex", gender := none,
                   plural := none, participle := none },
                 { text := [S "def two"], lexeme := S "lex", gender := none,
                   plural := none, participle := none },
                 { text := [S "def three"], lexeme := S "lex", gender := none,
                   plural := none, participle := none }] }
          = TranslitField.single ((rs.map Prod.snd).headD [])) ∧
      ((∃ a ∈ rs.map Prod.snd, ∃ b ∈ rs.map Prod.snd, a ≠ b) →
        WiktEntry.transliteration
            { pronunciations := S "pron",
              transliteration := TranslitField.single (S "ex"),
              definitions :=
                [{ text := [S "def one"], lexeme := S "lex", gender := none,
                   plural := none, participle := none },
                 { text := [S "def two"], lexeme := S "lex", gender := none,
                   plural := none, participle := none },
                 { text := [S "def three"], lexeme := S "lex", gender := none,
                   plural := none, participle := none }] }
          = TranslitField.list (rs.map Prod.snd)) :=
  C6_transliteration_collapse c6Entry _ (by decide) rfl

/-- C8: for every page the extractor accepts, the final `definitions` list
contains exactly one record per distinct 6-tuple
(partOfSpeech, text, gender, participle, plural, lexeme) among the
extracted entries (`kyTuples`): duplicates collapse to a single record. -/
theorem C8_definitions_dedup (root : Dom) (w : PStr) (r : KYRecord)
    (hok : get_word_from_kentucky root w = Except.ok r) :
    ∃ ts, kyTuples root = Except.ok ts ∧ r.definitions = ts.2.2.dedup ∧
      ∀ d : KYDef, r.definitions.count d = if d ∈ ts.2.2 then 1 else 0 := by
  unfold get_word_from_kentucky at hok
  cases ht : kyTuples root with
  | error e => rw [ht] at hok; cases hok
  | ok ts =>
    rw [ht] at hok
    injection hok with hr
    refine ⟨ts, rfl, ?_, ?_⟩
    · rw [← hr]
    · intro d
      rw [← hr]
      dsimp only
      exact List.count_dedup _ _

/-- Witness for C8 at the concrete page `c8Page`, whose two identical list
items extract to two identical tuples collapsing to one record. -/
theorem C8_definitions_witness :
    ∃ ts, kyTuples c8Page = Except.ok ts ∧
      KYRecord.definitions
          { transliteration := S "TR", stem := S "ST",
            definitions := [{
              partOfSpeech := some (S "noun"), text := S "meaning",
              gender := none, participle := none, plural := some (S "plx"),
              lexeme := S "STfoo" }] }
        = ts.2.2.dedup ∧
      ∀ d : KYDef,
        (KYRecord.definitions
            { transliteration := S "TR", stem := S "ST",
              definitions := [{
                partOfSpeech := some (S "noun"), text := S "meaning",
                gender := none, participle := none, plural := some (S "plx"),
                lexeme := S "STfoo" }] }).count d
          = if d ∈ ts.2.2 then 1 else 0 :=
  C8_definitions_dedup c8Page (S "vort") _ rfl

/-- C9 (counterexample): a complete, successful run of the Kentucky phase
on a one-word batch: the browser session is acquired and used, the phase
exits normally, and no release/close event occurs on this exit path. -/
theorem C9_counterexample :
    (kentucky_definition c9Fetch c9Wordlist).1
        = [KEvent.acquire, KEvent.navigate, KEvent.lookup (S "vort")] ∧
    (kentucky_definition c9Fetch c9Wordlist).2
        = Except.ok [(S "vort", [(S "kentucky", WLVal.kent
            { transliteration := S "TR", stem := S "ST",
              definitions := [{
                partOfSpeech := some (S "noun"), text := S "meaning",
                gender := none, participle := none, plural := some (S "plx"),
                lexeme := S "STfoo" }] })])] ∧
    ((kentucky_definition c9Fetch c9Wordlist).1).count KEvent.release = 0 ∧
    ((kentucky_definition (fun _ => c5BadPage) c9Wordlist).2
        = Except.error (S "Can\x27t find transliteration!") ∧
      ((kentucky_definition (fun _ => c5BadPage) c9Wordlist).1).count KEvent.release = 0) :=
  ⟨rfl, rfl, rfl, rfl, rfl⟩

/-- C9 (amended): `kentucky_definition` acquires one browser session for the
whole phase but never closes it: no exit path — normal completion or early
failure — emits a release event. -/
theorem C9_browser_never_released (fp : PStr → Dom) (wl : Wordlist) :
    ((kentucky_definition fp wl).1).count KEvent.release = 0 :=
  kentuckyLoop_no_release fp wl

/-- C10: for a word whose page passes both structural assertions but yields
zero entry containers after candidate matching including the fallback, the
extractor still returns a record with `transliteration` and `stem` set and
an empty `definitions` list, and when the phase completes, the word's
record in the final wordlist carries that result under the `kentucky`
key. -/
theorem C10_empty_definitions (root : Dom) (w tr st : PStr) (fp : PStr → Dom)
    (wl wl2 : Wordlist) (r0 : List (PStr × WLVal))
    (ha : kyAsserts root = Except.ok (tr, st))
    (he : kyEntries root st = Except.ok [])
    (hroot : fp w = root)
    (hmem : (w, r0) ∈ wl)
    (hok : (kentucky_definition fp wl).2 = Except.ok wl2) :
    get_word_from_kentucky root w
        = Except.ok { transliteration := tr, stem := st, definitions := [] } ∧
    ∃ r2, (w, r2) ∈ wl2 ∧
      (S "kentucky",
        WLVal.kent { transliteration := tr, stem := st, definitions := [] }) ∈ r2 := by
  have h1 : get_word_from_kentucky root w
      = Except.ok { transliteration := tr, stem := st, definitions := [] } := by
    unfold get_word_from_kentucky kyTuples
    rw [ha]
    dsimp only
    rw [he]
    rfl
  refine ⟨h1, ?_⟩
  have hloop : (kentuckyLoop fp wl).2 = Except.ok wl2 := hok
  obtain ⟨ky, hky, hm⟩ := kentuckyLoop_mem hloop hmem
  rw [hroot, h1] at hky
  injection hky with hky2
  rw [← hky2] at hm
  refine ⟨r0 ++ [(S "kentucky",
    WLVal.kent { transliteration := tr, stem := st, definitions := [] })], hm, ?_⟩
  exact List.mem_append.mpr (Or.inr (List.mem_singleton.mpr rfl))

/-- Witness for C10 at the concrete page `c10Page` (assertions pass, entry
list empty) and the one-word batch `c9Wordlist`. -/
theorem C10_empty_definitions_witness :
    get_word_from_kentucky c10Page (S "vort")
        = Except.ok { transliteration := S "TR", stem := S "ST", definitions := [] } ∧
    ∃ r2, (S "vort", r2) ∈
        [(S "vort", [(S "kentucky",
          WLVal.kent { transliteration := S "TR", stem := S "ST", definitions := [] })])] ∧
      (S "kentucky",
        WLVal.kent { transliteration := S "TR", stem := S "ST", definitions := [] }) ∈ r2 :=
  C10_empty_definitions c10Page (S "vort") (S "TR") (S "ST") c10Fetch c9Wordlist
    [(S "vort", [(S "kentucky",
      WLVal.kent { transliteration := S "TR", stem := S "ST", definitions := [] })])]
    [] rfl rfl rfl (by decide) rfl

/-- C7: for every page whose entry list exists and on which the entry
selection succeeds, the entry containers computed by the source
(`kyEntries`, main.py lines 104-115) are exactly those of the
specification's candidate-matching rule (`specEntryContainers`): good-match
spans filtered by stem-in-parent-text and lexeme class on the parent; if
any candidate remains, their grandparents filtered by stem-in-lexeme-text,
otherwise the immediate parents of all good-match spans, unfiltered. -/
theorem C7_entry_containers (root : Dom) (st : PStr) (ul : List Nat) (es : List (List Nat))
    (hul : root.findD (isTag (S "ul")) = some ul)
    (hok : kyEntries root st = Except.ok es) :
    es = specEntryContainers root ul st := by
  obtain ⟨uln, hulne, hulget, _⟩ := findD_mem hul
  have hvalid : ∀ gm ∈ findAllInPath root ul (isSpanClass (S "goodmatch")),
      gm ≠ [] ∧ gm.dropLast ≠ [] ∧ ∃ pn, root.getAt gm.dropLast = some pn := by
    intro gm hgm
    obtain ⟨q, n, hq, hqne, hget, _⟩ := findAllInPath_mem hgm
    have hgmne : gm ≠ [] := by
      rw [hq]
      simp [hqne]
    have hlen : 2 ≤ gm.length := by
      rw [hq, List.length_append]
      have h1 : 1 ≤ ul.length := by
        cases ul with
        | nil => cases hulne rfl
        | cons a l => simp
      have h2 : 1 ≤ q.length := by
        cases q with
        | nil => cases hqne rfl
        | cons a l => simp
      omega
    have hdne : gm.dropLast ≠ [] := by
      intro hc
      have hlc := congrArg List.length hc
      rw [List.length_dropLast] at hlc
      simp at hlc
      omega
    exact ⟨hgmne, hdne, getAt_parent hgmne hget⟩
  have hf1 : efilter (parentTextContains root st)
        (findAllInPath root ul (isSpanClass (S "goodmatch")))
      = Except.ok ((findAllInPath root ul (isSpanClass (S "goodmatch"))).filter
          (fun gm => pyExBool (parentTextContains root st gm))) := by
    apply efilter_ok_of_fn
    intro gm hgm
    obtain ⟨hne, _, pn, hpn⟩ := hvalid gm hgm
    simp only [parentTextContains, pyExBool, parentPath_eq hne, hpn]
  have hf2 : efilter (parentHasLexemeClass root)
        ((findAllInPath root ul (isSpanClass (S "goodmatch"))).filter
          (fun gm => pyExBool (parentTextContains root st gm)))
      = Except.ok (((findAllInPath root ul (isSpanClass (S "goodmatch"))).filter
          (fun gm => pyExBool (parentTextContains root st gm))).filter
          (fun gm => pyExBool (parentHasLexemeClass root gm))) := by
    apply efilter_ok_of_fn
    intro gm hgm
    obtain ⟨hne, _, pn, hpn⟩ := hvalid gm (List.mem_filter.mp hgm).1
    simp only [parentHasLexemeClass, pyExBool, parentPath_eq hne, hpn]
  have hcand : ((findAllInPath root ul (isSpanClass (S "goodmatch"))).filter
        (fun gm => pyExBool (parentTextContains root st gm))).filter
        (fun gm => pyExBool (parentHasLexemeClass root gm))
      = specCandidates root ul st := by
    rw [filter_filter_mine]
    unfold specCandidates
    apply filter_congr_mine
    intro gm hgm
    obtain ⟨hne, _, pn, hpn⟩ := hvalid gm hgm
    simp only [parentTextContains, parentHasLexemeClass, specParentPred, pyExBool,
      parentPath_eq hne, hpn]
  unfold kyEntries at hok
  split at hok
  · cases hok
  · rename_i ul2 hul2
    rw [hul] at hul2
    injection hul2 with hulEq
    subst hulEq
    split at hok
    · cases hok
    · rename_i gms1 hgms1
      rw [hf1] at hgms1
      injection hgms1 with hg1
      subst hg1
      split at hok
      · cases hok
      · rename_i gms2 hgms2
        rw [hf2] at hgms2
        injection hgms2 with hg2
        subst hg2
        split at hok
        · rename_i hlen0
          split at hok
          · cases hok
          · rename_i ul3 hul3
            injection hul3 with hulEq2
            subst hulEq2
            have hfa := emap_ok_iff.mp hok
            have hes : es = (findAllInPath root ul (isSpanClass (S "goodmatch"))).map
                List.dropLast := by
              apply forall2_eq_map hfa
              intro a ha b hb
              obtain ⟨hne, _, _⟩ := hvalid a ha
              rw [parentPath_eq hne] at hb
              have hb2 : Except.ok a.dropLast = Except.ok b := hb
              injection hb2 with hb3
              exact hb3.symm
            subst hes
            have hcnil : specCandidates root ul st = [] := by
              rw [← hcand]
              exact List.length_eq_zero.mp hlen0
            unfold specEntryContainers
            rw [if_pos hcnil]
            symm
            apply filterMap_eq_map_of_fn
            intro gm hgm
            exact parentPath_eq (hvalid gm hgm).1
        · rename_i hlenne
          split at hok
          · cases hok
          · rename_i entries hentries
            split at hok
            · cases hok
            · rename_i lexs hlexs
              injection hok with hes
              have hfa := emap_ok_iff.mp hentries
              have hent : entries = (((findAllInPath root ul
                      (isSpanClass (S "goodmatch"))).filter
                    (fun gm => pyExBool (parentTextContains root st gm))).filter
                    (fun gm => pyExBool (parentHasLexemeClass root gm))).map
                  (fun gm => gm.dropLast.dropLast) := by
                apply forall2_eq_map hfa
                intro a ha b hb
                obtain ⟨hne, hdne, _⟩ :=
                  hvalid a (List.mem_filter.mp (List.mem_filter.mp ha).1).1
                rw [parentPath_eq hne] at hb
                have hb2 : (match parentPath a.dropLast with
                    | none => (Except.error (S "AttributeError") : Except PStr (List Nat))
                    | some p2 => Except.ok p2) = Except.ok b := hb
                rw [parentPath_eq hdne] at hb2
                have hb3 : Except.ok a.dropLast.dropLast = Except.ok b := hb2
                injection hb3 with hb4
                exact hb4.symm
              subst hent
              rw [← hes]
              rw [zip_filter_map_lex (emap_ok_iff.mp hlexs)]
              have hcne : specCandidates root ul st ≠ [] := by
                rw [← hcand]
                intro hc
                apply hlenne
                rw [hc]
                rfl
              unfold specEntryContainers
              rw [if_neg hcne]
              rw [← hcand]
              have hmapfm : (((findAllInPath root ul (isSpanClass (S "goodmatch"))).filter
                    (fun gm => pyExBool (parentTextContains root st gm))).filter
                    (fun gm => pyExBool (parentHasLexemeClass root gm))).filterMap
                  (fun gm => (parentPath gm).bind parentPath)
                = (((findAllInPath root ul (isSpanClass (S "goodmatch"))).filter
                    (fun gm => pyExBool (parentTextContains root st gm))).filter
                    (fun gm => pyExBool (parentHasLexemeClass root gm))).map
                  (fun gm => gm.dropLast.dropLast) := by
                apply filterMap_eq_map_of_fn
                intro gm hgm
                obtain ⟨hne, hdne, _⟩ :=
                  hvalid gm (List.mem_filter.mp (List.mem_filter.mp hgm).1).1
                rw [parentPath_eq hne]
                exact parentPath_eq hdne
              rw [hmapfm]

/-- Witness for C7 at the concrete page `c7Page`, stem `ST` and entry list
at path `[8]`. -/
theorem C7_entry_containers_witness :
    [[8, 0]] = specEntryContainers c7Page [8] (S "ST") :=
  C7_entry_containers c7Page (S "ST") [8] [[8, 0]] rfl rfl
